import Mathlib

/-
Verification of the LeanBacktester data pipeline against its specification.
The Python sources under src/data_pipeline and src/algo_runner.py are embedded
shallowly: prices are exact rationals, Python dictionaries become structures,
filesystem and network effects become explicit values (write descriptors,
fetch oracles, operation traces).
-/

namespace LeanBacktester

/-- Wall-clock timestamp as carried by the Python datetime values flowing
through the pipeline: calendar fields plus time of day.  Sub-second precision
is collapsed to milliseconds, the granularity the encoders use. -/
structure PyDateTime where
  year : Nat
  month : Nat
  day : Nat
  hour : Nat
  minute : Nat
  second : Nat
  millisecond : Nat
deriving DecidableEq, Repr, Inhabited

/-- Embedding of milliseconds_since_midnight (src/data_pipeline/utils.py).
The Python code zeroes hour, minute, second and microsecond to get midnight of
the same calendar day and returns the difference in milliseconds, which is
exactly the time of day of the timestamp in milliseconds. -/
def milliseconds_since_midnight (dt : PyDateTime) : Nat :=
  ((dt.hour * 60 + dt.minute) * 60 + dt.second) * 1000 + dt.millisecond

/-- Python int() applied to a numeric value: truncation toward zero.
Prices are embedded as exact rationals. -/
def pyInt (q : ℚ) : ℤ := if 0 ≤ q then ⌊q⌋ else ⌈q⌉

/-- A fully populated OHLCV bar, as built by the downloaders before encoding
(the Python dictionaries there always carry all six fields).  The field name
open_ stands for the Python key named open, which is a reserved word here. -/
structure Bar where
  timestamp : PyDateTime
  open_ : ℚ
  high : ℚ
  low : ℚ
  close : ℚ
  volume : ℚ
deriving DecidableEq, Repr, Inhabited

/-- A raw bar as seen by the Validator: a Python dictionary that may be
missing any of the required fields, embedded with Option per field. -/
structure RawBar where
  timestamp : Option PyDateTime
  open_ : Option ℚ
  high : Option ℚ
  low : Option ℚ
  close : Option ℚ
  volume : Option ℚ
deriving DecidableEq, Repr

/-- View of a complete bar as a raw dictionary (all fields present). -/
def Bar.toRaw (b : Bar) : RawBar :=
  ⟨some b.timestamp, some b.open_, some b.high, some b.low, some b.close, some b.volume⟩

/-- One cell of an encoded CSV row: the Python rows are heterogeneous lists
holding ints, floats and strings. -/
inductive Cell where
  | intVal (z : ℤ)
  | floatVal (q : ℚ)
  | strVal (s : String)
deriving DecidableEq, Repr

/-- An encoded CSV row. -/
abbrev Row := List Cell

/-- Zero padding to width 2, as strftime does for %m %d %H %M. -/
def pad2 (n : Nat) : String := if n < 10 then "0" ++ toString n else toString n

/-- Zero padding to width 4, as strftime does for %Y. -/
def pad4 (n : Nat) : String :=
  if n < 10 then "000" ++ toString n
  else if n < 100 then "00" ++ toString n
  else if n < 1000 then "0" ++ toString n
  else toString n

/-- The strftime format string used for daily equity rows in
create_lean_tradebar_csv: year month day, space, hour colon minute. -/
def strftimeYmdHM (dt : PyDateTime) : String :=
  pad4 dt.year ++ pad2 dt.month ++ pad2 dt.day ++ " " ++ pad2 dt.hour ++ ":" ++ pad2 dt.minute

/-- Time cell of an equity row (src/data_pipeline/utils.py, lines 45 to 50):
the daily resolution takes the absolute date and time token, every other
resolution takes milliseconds since midnight of the bar timestamp. -/
def equityTimeCell (resolution : String) (b : Bar) : Cell :=
  if resolution = "daily" then .strVal (strftimeYmdHM b.timestamp)
  else .intVal (milliseconds_since_midnight b.timestamp)

/-- Embedding of create_lean_tradebar_csv (src/data_pipeline/utils.py).
Each bar yields one row: time cell, then the four price fields multiplied by
10000 and passed through Python int(), then the volume passed through int().
The symbol and date parameters of the Python function are unused in its body
and therefore omitted here. -/
def create_lean_tradebar_csv (data : List Bar) (resolution : String) : List Row :=
  data.map (fun b =>
    [equityTimeCell resolution b,
     .intVal (pyInt (b.open_ * 10000)),
     .intVal (pyInt (b.high * 10000)),
     .intVal (pyInt (b.low * 10000)),
     .intVal (pyInt (b.close * 10000)),
     .intVal (pyInt b.volume)])

/-- Embedding of create_lean_crypto_csv (src/data_pipeline/utils.py).
Each bar yields one row: milliseconds since midnight, then the four price
fields and the volume kept as raw floating point values, for every
resolution.  The symbol, date and resolution parameters of the Python
function are unused in its body; resolution is kept to state the claims. -/
def create_lean_crypto_csv (data : List Bar) (_resolution : String) : List Row :=
  data.map (fun b =>
    [Cell.intVal (milliseconds_since_midnight b.timestamp),
     .floatVal b.open_,
     .floatVal b.high,
     .floatVal b.low,
     .floatVal b.close,
     .floatVal b.volume])

/-- A log message emitted through the logger, tagged by severity. -/
inductive LogEntry where
  | error (msg : String)
  | warning (msg : String)
  | info (msg : String)
  | debug (msg : String)
deriving DecidableEq, Repr

/-- Embedding of AlpacaDataDownloader.convert_timeframe
(src/data_pipeline/alpaca_downloader.py, lines 79 to 87): a fixed mapping
with default token 1Min.  The second component records the log messages the
body emits; the Python body performs no logging call at all. -/
def convert_timeframe (timeframe : String) : String × List LogEntry :=
  (if timeframe = "minute" then "1Min"
   else if timeframe = "hour" then "1Hour"
   else if timeframe = "daily" then "1Day"
   else "1Min", [])

/-- Embedding of BinanceDataDownloader.convert_interval
(src/data_pipeline/binance_downloader.py, lines 75 to 83): a fixed mapping
with default token 1m.  The second component records the log messages the
body emits; the Python body performs no logging call at all. -/
def convert_interval (interval : String) : String × List LogEntry :=
  (if interval = "minute" then "1m"
   else if interval = "hour" then "1h"
   else if interval = "daily" then "1d"
   else "1m", [])

/-- A concrete bar used in concrete counterexamples: all four prices are
29 / 100000, so that the scaled price is 2.9, whose truncation is 2 while the
nearest integer is 3. -/
def cexBar : Bar :=
  { timestamp := ⟨2024, 1, 2, 10, 30, 0, 0⟩
    open_ := 29 / 100000
    high := 29 / 100000
    low := 29 / 100000
    close := 29 / 100000
    volume := 100 }

/-- Claim C1 as stated by the spec: every equity price field is stored as the
nearest integer to 10000 times the price, and every crypto price field is
stored raw and unscaled. -/
def claimedEquityScaling : Prop :=
  ∀ (data : List Bar) (resolution : String),
    create_lean_tradebar_csv data resolution =
      data.map (fun b =>
        [equityTimeCell resolution b,
         .intVal (round (b.open_ * 10000)),
         .intVal (round (b.high * 10000)),
         .intVal (round (b.low * 10000)),
         .intVal (round (b.close * 10000)),
         .intVal (pyInt b.volume)]) ∧
    create_lean_crypto_csv data resolution =
      data.map (fun b =>
        [Cell.intVal (milliseconds_since_midnight b.timestamp),
         .floatVal b.open_,
         .floatVal b.high,
         .floatVal b.low,
         .floatVal b.close,
         .floatVal b.volume])

/-- Embedding of DataValidator.validate_ohlcv_data (src/data_pipeline/utils.py,
lines 135 to 153): every required field must be present, the OHLC ordering
low at most open at most high and low at most close at most high must hold,
and the volume must be nonnegative. -/
def validate_ohlcv_data (b : RawBar) : Bool :=
  match b.open_, b.high, b.low, b.close, b.volume, b.timestamp with
  | some o, some hi, some lo, some c, some v, some _ =>
      decide (lo ≤ o) && decide (o ≤ hi) && decide (lo ≤ c) && decide (c ≤ hi) &&
      decide (0 ≤ v)
  | _, _, _, _, _, _ => false

/-- Embedding of DataValidator.clean_ohlcv_data (src/data_pipeline/utils.py,
lines 155 to 164): keep, in order, exactly the bars the validator accepts. -/
def clean_ohlcv_data (data : List RawBar) : List RawBar :=
  data.filter validate_ohlcv_data

/-- The invariant of claim C3, written from the words of the spec: all
required fields are carried, low bounds open and close from below, high
bounds them from above, and the volume is nonnegative. -/
def claimedValidBar (b : RawBar) : Prop :=
  ∃ (ts : PyDateTime) (o hi lo c v : ℚ),
    b = ⟨some ts, some o, some hi, some lo, some c, some v⟩ ∧
    lo ≤ o ∧ o ≤ hi ∧ lo ≤ c ∧ c ≤ hi ∧ 0 ≤ v

/-- The validator acceptance test decides exactly the invariant of claim C3. -/
theorem validate_iff_claimedValidBar (b : RawBar) :
    validate_ohlcv_data b = true ↔ claimedValidBar b := by
  obtain ⟨ts, o, hi, lo, c, v⟩ := b
  constructor
  · intro h
    rcases ts with _ | ts <;> rcases o with _ | o <;> rcases hi with _ | hi <;>
      rcases lo with _ | lo <;> rcases c with _ | c <;> rcases v with _ | v <;>
      simp [validate_ohlcv_data] at h
    exact ⟨_, _, _, _, _, _, rfl, h.1.1.1.1, h.1.1.1.2, h.1.1.2, h.1.2, h.2⟩
  · rintro ⟨ts, o, hi, lo, c, v, heq, h1, h2, h3, h4, h5⟩
    cases heq
    simp [validate_ohlcv_data, h1, h2, h3, h4, h5]

/-- The claim C3 invariant is decidable, through the validator itself. -/
instance claimedValidBar.instDecidablePred : DecidablePred claimedValidBar :=
  fun b => decidable_of_iff _ (validate_iff_claimedValidBar b)

/-- Claim C3: the clean operation returns exactly the subsequence of bars
satisfying the invariant, drops every violating bar, and returns every
retained bar unaltered (the output is a sublist of the input, so retained
elements are the very input values). -/
theorem clean_is_exact_filter (data : List RawBar) :
    clean_ohlcv_data data = data.filter (fun b => decide (claimedValidBar b)) ∧
    (clean_ohlcv_data data).Sublist data ∧
    (∀ b ∈ clean_ohlcv_data data, claimedValidBar b) ∧
    (∀ b ∈ data, claimedValidBar b → b ∈ clean_ohlcv_data data) := by
  have hpt : ∀ b : RawBar, validate_ohlcv_data b = decide (claimedValidBar b) := by
    intro b
    rcases h : validate_ohlcv_data b with _ | _
    · have hnc : ¬ claimedValidBar b := by
        intro hc
        have h2 := (validate_iff_claimedValidBar b).2 hc
        rw [h] at h2
        exact Bool.noConfusion h2
      exact (decide_eq_false hnc).symm
    · exact (decide_eq_true ((validate_iff_claimedValidBar b).1 h)).symm
  have hfe : clean_ohlcv_data data = data.filter (fun b => decide (claimedValidBar b)) := by
    unfold clean_ohlcv_data
    exact List.filter_congr (fun b _ => hpt b)
  refine ⟨hfe, ?_, ?_, ?_⟩
  · exact List.filter_sublist data
  · intro b hb
    rw [hfe] at hb
    have := (List.mem_filter.mp hb).2
    exact of_decide_eq_true this
  · intro b hb hc
    rw [hfe]
    exact List.mem_filter.mpr ⟨hb, decide_eq_true hc⟩

/-- A complete raw bar satisfying the invariant, for concrete witnesses. -/
def goodRaw : RawBar :=
  ⟨some ⟨2024, 1, 2, 10, 30, 0, 0⟩, some 1, some 2, some 0, some 1, some 5⟩

/-- A raw bar violating the invariant (high below low), for witnesses. -/
def badRaw : RawBar :=
  ⟨some ⟨2024, 1, 2, 10, 31, 0, 0⟩, some 1, some 0, some 2, some 1, some 5⟩

/-- C3, witness: on a concrete two-bar input the clean operation keeps the
valid bar and drops the invalid one. -/
theorem clean_is_exact_filter_witness :
    claimedValidBar goodRaw ∧ clean_ohlcv_data [goodRaw, badRaw] = [goodRaw] :=
  ⟨(clean_is_exact_filter [goodRaw, badRaw]).2.2.1 goodRaw (by decide), by decide⟩

/-- Head cell of an encoded row, the position the time token occupies. -/
def rowTimeCell (r : Row) : Option Cell := r.head?

/-- Claim C4 as stated by the spec: for rows of either asset class the time
field depends only on the resolution, with daily rows carrying the absolute
date and time token and sub-daily rows carrying milliseconds since midnight. -/
def claimedTimeEncoding : Prop :=
  ∀ (data : List Bar) (resolution : String),
    (resolution = "daily" →
      (create_lean_tradebar_csv data resolution).map rowTimeCell =
        data.map (fun b => some (Cell.strVal (strftimeYmdHM b.timestamp))) ∧
      (create_lean_crypto_csv data resolution).map rowTimeCell =
        data.map (fun b => some (Cell.strVal (strftimeYmdHM b.timestamp)))) ∧
    ((resolution = "minute" ∨ resolution = "hour") →
      (create_lean_tradebar_csv data resolution).map rowTimeCell =
        data.map (fun b => some (Cell.intVal (milliseconds_since_midnight b.timestamp))) ∧
      (create_lean_crypto_csv data resolution).map rowTimeCell =
        data.map (fun b => some (Cell.intVal (milliseconds_since_midnight b.timestamp))))

/-- Claim C9 as stated by the spec: an unrecognized resolution maps to the
finest granularity token of each provider adapter and this fallback is
logged as a warning. -/
def claimedResolutionFallback : Prop :=
  ∀ tf : String, tf ∉ ["minute", "hour", "daily"] →
    ((convert_timeframe tf).1 = "1Min" ∧
      ∃ m, LogEntry.warning m ∈ (convert_timeframe tf).2) ∧
    ((convert_interval tf).1 = "1m" ∧
      ∃ m, LogEntry.warning m ∈ (convert_interval tf).2)

/-- C1, counterexample: at price 29 / 100000 the scaled value is 2.9; the
encoder stores 2 (Python int truncation) while rounding to nearest would
store 3, so the claim as stated is false. -/
theorem equity_scaling_claim_false : ¬ claimedEquityScaling := by
  intro h
  have h2 := (h [cexBar] "minute").1
  simp only [create_lean_tradebar_csv, List.map_cons, List.map_nil, List.cons.injEq,
    and_true, true_and, Cell.intVal.injEq] at h2
  have hv : (0 : ℚ) ≤ cexBar.open_ * 10000 := by norm_num [cexBar]
  rw [pyInt, if_pos hv] at h2
  have hfl : ⌊cexBar.open_ * 10000⌋ = 2 := by norm_num [cexBar]
  have hrd : round (cexBar.open_ * 10000) = 3 := by norm_num [cexBar, round_eq]
  rw [hfl, hrd] at h2
  exact absurd h2.1 (by decide)

/-- C1, amended: each equity price field is stored as 10000 times the price
truncated toward zero (floor for nonnegative values, ceiling for negative
ones, the semantics of Python int()), and each crypto price field is stored
as the raw unscaled value.  The truncation keeps the stored integer within
one unit of the exact scaled value, on the zero side of it. -/
theorem equity_scaling_amended (data : List Bar) (resolution : String) (q : ℚ) :
    create_lean_tradebar_csv data resolution =
      data.map (fun b =>
        [equityTimeCell resolution b,
         .intVal (if 0 ≤ b.open_ * 10000 then ⌊b.open_ * 10000⌋ else ⌈b.open_ * 10000⌉),
         .intVal (if 0 ≤ b.high * 10000 then ⌊b.high * 10000⌋ else ⌈b.high * 10000⌉),
         .intVal (if 0 ≤ b.low * 10000 then ⌊b.low * 10000⌋ else ⌈b.low * 10000⌉),
         .intVal (if 0 ≤ b.close * 10000 then ⌊b.close * 10000⌋ else ⌈b.close * 10000⌉),
         .intVal (pyInt b.volume)]) ∧
    create_lean_crypto_csv data resolution =
      data.map (fun b =>
        [Cell.intVal (milliseconds_since_midnight b.timestamp),
         .floatVal b.open_,
         .floatVal b.high,
         .floatVal b.low,
         .floatVal b.close,
         .floatVal b.volume]) ∧
    (0 ≤ q → (pyInt q : ℚ) ≤ q ∧ q - 1 < (pyInt q : ℚ)) ∧
    (q < 0 → q ≤ (pyInt q : ℚ) ∧ (pyInt q : ℚ) < q + 1) := by
  refine ⟨rfl, rfl, fun h => ?_, fun h => ?_⟩
  · rw [pyInt, if_pos h]
    exact ⟨Int.floor_le q, Int.sub_one_lt_floor q⟩
  · rw [pyInt, if_neg (by exact fun hc => absurd h (not_lt.mpr hc))]
    exact ⟨Int.le_ceil q, Int.ceil_lt_add_one q⟩

/-- C1, witness: the truncation bound evaluated at the nonnegative rational
three. -/
theorem equity_scaling_amended_witness :
    (pyInt 3 : ℚ) ≤ 3 ∧ (3 : ℚ) - 1 < (pyInt 3 : ℚ) :=
  (equity_scaling_amended [] "minute" 3).2.2.1 (by decide)

/-- C4, counterexample: at daily resolution the crypto encoder emits
milliseconds since midnight, not the absolute date and time token, so the
claim as stated is false. -/
theorem time_encoding_claim_false : ¬ claimedTimeEncoding := by
  intro h
  exact absurd ((h [cexBar] "daily").1 rfl).2 (by decide)

/-- C4, amended: only the equity encoder branches on resolution (daily rows
carry the absolute date and time token, all other rows carry milliseconds
since midnight of the bar timestamp); the crypto encoder emits milliseconds
since midnight at every resolution, daily included. -/
theorem time_encoding_amended (data : List Bar) (resolution : String) :
    (resolution = "daily" →
      (create_lean_tradebar_csv data resolution).map rowTimeCell =
        data.map (fun b => some (Cell.strVal (strftimeYmdHM b.timestamp)))) ∧
    (resolution ≠ "daily" →
      (create_lean_tradebar_csv data resolution).map rowTimeCell =
        data.map (fun b => some (Cell.intVal (milliseconds_since_midnight b.timestamp)))) ∧
    (create_lean_crypto_csv data resolution).map rowTimeCell =
      data.map (fun b => some (Cell.intVal (milliseconds_since_midnight b.timestamp))) := by
  refine ⟨fun h => ?_, fun h => ?_, ?_⟩
  · simp [create_lean_tradebar_csv, rowTimeCell, equityTimeCell, h]
  · simp [create_lean_tradebar_csv, rowTimeCell, equityTimeCell, h]
  · simp [create_lean_crypto_csv, rowTimeCell]

/-- C4, witness: the amended statement evaluated for one bar at daily and at
minute resolution. -/
theorem time_encoding_amended_witness :
    (create_lean_tradebar_csv [cexBar] "daily").map rowTimeCell =
      [some (Cell.strVal (strftimeYmdHM cexBar.timestamp))] ∧
    (create_lean_tradebar_csv [cexBar] "minute").map rowTimeCell =
      [some (Cell.intVal (milliseconds_since_midnight cexBar.timestamp))] :=
  ⟨(time_encoding_amended [cexBar] "daily").1 rfl,
   (time_encoding_amended [cexBar] "minute").2.1 (by decide)⟩

/-- C9, counterexample: for the unrecognized resolution string second the
fallback token is produced but the adapter emits no log message at all, so
no warning is logged and the claim as stated is false. -/
theorem resolution_fallback_claim_false : ¬ claimedResolutionFallback := by
  intro h
  obtain ⟨⟨-, m, hm⟩, -⟩ := h "second" (by decide)
  simp [convert_timeframe] at hm

/-- C9, amended: an unrecognized resolution maps to the finest granularity
token of each adapter (1Min for the equity adapter, 1m for the crypto
adapter), and the fallback is silent: no log message of any severity is
emitted. -/
theorem resolution_fallback_amended (tf : String)
    (h : tf ∉ ["minute", "hour", "daily"]) :
    convert_timeframe tf = ("1Min", []) ∧ convert_interval tf = ("1m", []) := by
  simp only [List.mem_cons, List.mem_singleton, not_or] at h
  obtain ⟨h1, h2, h3, -⟩ := h
  constructor
  · simp [convert_timeframe, h1, h2, h3]
  · simp [convert_interval, h1, h2, h3]

/-- C9, witness: the amended statement evaluated at the unrecognized
resolution string second. -/
theorem resolution_fallback_amended_witness :
    convert_timeframe "second" = ("1Min", []) ∧ convert_interval "second" = ("1m", []) :=
  resolution_fallback_amended "second" (by decide)

/-- The weekday of an instant.  Instants are minutes since an epoch midnight
that falls on a Monday (Python datetime year 1 month 1 day 1 is a Monday),
so the Python weekday of an instant t is t / 1440 % 7 with Monday = 0 and
values below 5 being Monday through Friday. -/
def weekday (t : Nat) : Nat := t / 1440 % 7

/-- The while loop of get_trading_days (src/data_pipeline/utils.py, lines 106
to 117), with an explicit fuel bound on the number of iterations: while the
current instant does not exceed the end instant, append it when its weekday
is below 5 and advance by exactly one day (1440 minutes), keeping the time
of day of the start instant. -/
def get_trading_days_loop : Nat → Nat → Nat → List Nat
  | 0, _, _ => []
  | fuel + 1, current, end_ =>
    if current ≤ end_ then
      (if weekday current < 5 then [current] else []) ++
        get_trading_days_loop fuel (current + 1440) end_
    else []

/-- Embedding of get_trading_days: the loop performs at most end + 1
iterations (the k-th appended instant needs start + 1440 * k at most end, and
k is at most 1440 * k), so this fuel is never exhausted. -/
def get_trading_days (start_date end_date : Nat) : List Nat :=
  get_trading_days_loop (end_date + 1) start_date end_date

theorem get_trading_days_loop_mem {fuel cur e t : Nat} :
    t ∈ get_trading_days_loop fuel cur e ↔
      ∃ k, k < fuel ∧ t = cur + 1440 * k ∧ t ≤ e ∧ weekday t < 5 := by
  induction fuel generalizing cur with
  | zero => simp [get_trading_days_loop]
  | succ n ih =>
    rw [get_trading_days_loop]
    by_cases hce : cur ≤ e
    · rw [if_pos hce]
      simp only [List.mem_append, ih]
      constructor
      · rintro (hl | ⟨k, hk, rfl, hle, hw⟩)
        · by_cases hw : weekday cur < 5
          · rw [if_pos hw] at hl
            simp only [List.mem_singleton] at hl
            subst hl
            exact ⟨0, by omega, by omega, hce, hw⟩
          · rw [if_neg hw] at hl
            simp at hl
        · exact ⟨k + 1, by omega, by omega, hle, hw⟩
      · rintro ⟨k, hk, rfl, hle, hw⟩
        cases k with
        | zero =>
          left
          have : cur + 1440 * 0 = cur := by omega
          rw [this] at hw ⊢
          rw [if_pos hw]
          simp
        | succ m =>
          right
          exact ⟨m, by omega, by omega, hle, hw⟩
    · rw [if_neg hce]
      simp only [List.not_mem_nil, false_iff]
      rintro ⟨k, hk, rfl, hle, hw⟩
      omega

theorem get_trading_days_mem {s e t : Nat} :
    t ∈ get_trading_days s e ↔ ∃ k, t = s + 1440 * k ∧ t ≤ e ∧ weekday t < 5 := by
  rw [get_trading_days, get_trading_days_loop_mem]
  constructor
  · rintro ⟨k, -, h⟩
    exact ⟨k, h⟩
  · rintro ⟨k, hk, hle, hw⟩
    have hk14 : k ≤ 1440 * k := by omega
    exact ⟨k, by omega, hk, hle, hw⟩

theorem get_trading_days_loop_lb {fuel cur e t : Nat}
    (h : t ∈ get_trading_days_loop fuel cur e) : cur ≤ t := by
  obtain ⟨k, -, rfl, -, -⟩ := get_trading_days_loop_mem.mp h
  omega

theorem get_trading_days_loop_chain (fuel cur e : Nat) :
    List.Chain' (· < ·) (get_trading_days_loop fuel cur e) := by
  induction fuel generalizing cur with
  | zero => simp [get_trading_days_loop]
  | succ n ih =>
    rw [get_trading_days_loop]
    by_cases hce : cur ≤ e
    · rw [if_pos hce]
      by_cases hw : weekday cur < 5
      · rw [if_pos hw]
        rw [List.singleton_append, List.chain'_cons']
        refine ⟨fun y hy => ?_, ih (cur + 1440)⟩
        have hmem : y ∈ get_trading_days_loop n (cur + 1440) e := List.mem_of_mem_head? hy
        have := get_trading_days_loop_lb hmem
        omega
      · rw [if_neg hw, List.nil_append]
        exact ih (cur + 1440)
    · rw [if_neg hce]
      simp

/-- The list of calendar days (as day indices) intersecting the closed
interval from start to end whose weekday is Monday through Friday: the set
claim C10 says the enumeration returns. -/
def claimedCalendarTradingDays (s e : Nat) : List Nat :=
  (List.range (e / 1440 + 1)).filterMap (fun d =>
    if s ≤ d * 1440 + 1439 ∧ d * 1440 ≤ e ∧ d % 7 < 5 then some d else none)

/-- Claim C10 as stated: for start at most end, the trading-day enumeration
returns exactly the weekday calendar days of the interval. -/
def claimedTradingDays : Prop :=
  ∀ s e, s ≤ e →
    (get_trading_days s e).map (fun t => t / 1440) = claimedCalendarTradingDays s e

/-- C10, counterexample: start Monday 12:00 (instant 720), end Tuesday 00:00
(instant 1440).  Tuesday is a weekday calendar day inside the interval, but
the enumeration steps in whole-day increments from the start instant, and
Tuesday 12:00 already exceeds the end instant, so only Monday is returned. -/
theorem trading_days_claim_false : ¬ claimedTradingDays := by
  intro h
  exact absurd (h 720 1440 (by omega)) (by decide)

/-- C10, amended: the enumeration returns exactly the instants start plus a
whole number of days that do not exceed end and whose weekday is Monday
through Friday (so a trailing calendar day whose start-time-of-day instant
exceeds end is omitted), in strictly ascending order, and returns the empty
list when start exceeds end. -/
theorem trading_days_amended (s e : Nat) :
    (∀ t, t ∈ get_trading_days s e ↔
      ∃ k, t = s + 1440 * k ∧ t ≤ e ∧ t / 1440 % 7 < 5) ∧
    List.Chain' (· < ·) (get_trading_days s e) ∧
    (e < s → get_trading_days s e = []) := by
  refine ⟨fun t => get_trading_days_mem, get_trading_days_loop_chain _ s e, fun hlt => ?_⟩
  rw [get_trading_days, get_trading_days_loop, if_neg (by omega)]

/-- C10, witness: the amended statement evaluated at concrete instants. -/
theorem trading_days_amended_witness : get_trading_days 1500 100 = [] :=
  (trading_days_amended 1500 100).2.2 (by decide)

/-- Python str applied to one cell value, as used when serializing a row.
The rendering of a float is abstracted by the rendering of the exact
rational standing for it. -/
def cellStr : Cell → String
  | .intVal z => toString z
  | .floatVal q => toString q
  | .strVal s => s

/-- The CSV payload string built inside write_lean_zip_file
(src/data_pipeline/utils.py, lines 89 to 96): cells joined by commas, one
line per row, each line terminated by a newline. -/
def csvString (content : List Row) : String :=
  String.join (content.map (fun row => String.intercalate "," (row.map cellStr) ++ "\n"))

/-- A filesystem operation, for stating what write_lean_zip_file does to the
partition tree.  Paths are lists of components. -/
inductive FsOp where
  | mkdirs (dir : List String)
  | createFile (path : List String)
  | writeEntry (path : List String) (entry : String) (data : String)
  | rename (src dst : List String)
deriving DecidableEq, Repr

/-- The filesystem operations performed by write_lean_zip_file
(src/data_pipeline/utils.py, lines 85 to 96): ensure the parent directory
exists, open the zip file for writing directly at the output path (creating
or truncating it there), and write the single CSV entry into it.  No
temporary file and no rename is involved. -/
def write_lean_zip_file_trace (content : List Row) (output_path : List String)
    (csv_filename : String) : List FsOp :=
  [.mkdirs output_path.dropLast,
   .createFile output_path,
   .writeEntry output_path csv_filename (csvString content)]

/-- Claim C6 as stated: the encoder writes to a temporary location and then
atomically renames onto the canonical path, so nothing is ever created
directly at the canonical path. -/
def claimedAtomicWrite : Prop :=
  ∀ (content : List Row) (output_path : List String) (csv_filename : String),
    (∃ tmp, tmp ≠ output_path ∧
      FsOp.rename tmp output_path ∈ write_lean_zip_file_trace content output_path csv_filename) ∧
    (∀ p, FsOp.createFile p ∈ write_lean_zip_file_trace content output_path csv_filename →
      p ≠ output_path)

/-- C6, counterexample: the trace of a concrete write contains no rename
operation at all, so the claim as stated is false. -/
theorem atomic_write_claim_false : ¬ claimedAtomicWrite := by
  intro h
  obtain ⟨⟨tmp, -, hmem⟩, -⟩ := h [] ["equity", "usa", "daily", "aapl.zip"] "aapl_daily_trade.csv"
  simp [write_lean_zip_file_trace] at hmem

/-- C6, amended: the encoder creates the file directly at the canonical
output path (after ensuring the parent directory exists) and performs no
rename, so a write that fails partway can leave a truncated file at the
canonical path. -/
theorem zip_write_direct (content : List Row) (output_path : List String)
    (csv_filename : String) :
    FsOp.createFile output_path ∈ write_lean_zip_file_trace content output_path csv_filename ∧
    (∀ src dst, FsOp.rename src dst ∉ write_lean_zip_file_trace content output_path csv_filename) := by
  refine ⟨by simp [write_lean_zip_file_trace], fun src dst => by simp [write_lean_zip_file_trace]⟩

/-- C6, witness: the amended statement evaluated on a concrete write. -/
theorem zip_write_direct_witness :
    FsOp.createFile ["daily", "aapl.zip"] ∈ write_lean_zip_file_trace [] ["daily", "aapl.zip"] "a.csv" ∧
    FsOp.rename ["tmp"] ["daily", "aapl.zip"] ∉ write_lean_zip_file_trace [] ["daily", "aapl.zip"] "a.csv" :=
  ⟨(zip_write_direct [] ["daily", "aapl.zip"] "a.csv").1,
   (zip_write_direct [] ["daily", "aapl.zip"] "a.csv").2 ["tmp"] ["daily", "aapl.zip"]⟩

/-- Python str.lower applied to a symbol: the symbols handled by the pipeline
are ASCII tickers, for which lowering is the character-wise map. -/
def pyLower (s : String) : String := ⟨s.data.map Char.toLower⟩

/-- Equity data root, data/equity/usa (src/data_pipeline/config.py). -/
def EQUITY_DATA_PATH : List String := ["data", "equity", "usa"]

/-- Crypto data root, data/crypto/binance (src/data_pipeline/config.py). -/
def CRYPTO_DATA_PATH : List String := ["data", "crypto", "binance"]

/-- Rendering of the calendar date of an instant used in minute partition
names, standing for format_lean_date (strftime of format %Y%m%d): an
injective token of the day index, so two instants render equal exactly when
they fall on the same calendar day. -/
def dayToken (t : Nat) : String := toString (t / 1440)

/-- The date key used to group bars by calendar date in the daily branch of
download_symbol_data: the strftime %Y%m%d string, whose string ordering for
four-digit years coincides with this numeric key. -/
def dateKey (dt : PyDateTime) : Nat := dt.year * 10000 + dt.month * 100 + dt.day

/-- Insert into a sorted list, for the embedding of Python sorted(). -/
def insertSorted (x : Nat) : List Nat → List Nat
  | [] => [x]
  | y :: ys => if x ≤ y then x :: y :: ys else y :: insertSorted x ys

/-- Embedding of Python sorted() on numeric date keys. -/
def sortNat (l : List Nat) : List Nat := l.foldr insertSorted []

/-- The sorted list of distinct date keys of a bar list, as the daily branch
builds it: the Python code collects the keys of a dictionary indexed by date
key and sorts them, so the result is the sorted deduplicated key list. -/
def sortedDateKeys (bars : List Bar) : List Nat :=
  sortNat ((bars.map (fun b => dateKey b.timestamp)).dedup)

/-- A provider endpoint oracle: symbol, provider timeframe token, range
start instant and range end instant, yielding either bars or a raised
error.  It stands for the api.get_bars and get_historical_klines calls. -/
def FetchOracle := String → String → Nat → Nat → Except String (List Bar)

/-- Validation of a list of complete bars, as the downloaders apply
DataValidator.clean_ohlcv_data to the dictionaries they build, which always
carry all six fields. -/
def cleanBars (data : List Bar) : List Bar :=
  data.filter (fun b => validate_ohlcv_data b.toRaw)

/-- Embedding of AlpacaDataDownloader.get_bars
(src/data_pipeline/alpaca_downloader.py, lines 43 to 77): convert the
timeframe and call the provider; the whole body runs under try/except, so
any provider error is logged and the empty list is returned. -/
def get_bars (fetch : FetchOracle) (symbol timeframe : String) (s e : Nat) :
    List Bar × List LogEntry :=
  match fetch symbol (convert_timeframe timeframe).1 s e with
  | .ok bars => (bars, [])
  | .error msg => ([], [.error msg])

/-- Embedding of BinanceDataDownloader.get_klines
(src/data_pipeline/binance_downloader.py, lines 38 to 73), with the same
try/except shape around the crypto provider call. -/
def get_klines (fetch : FetchOracle) (symbol interval : String) (s e : Nat) :
    List Bar × List LogEntry :=
  match fetch symbol (convert_interval interval).1 s e with
  | .ok bars => (bars, [])
  | .error msg => ([], [.error msg])

/-- One pending partition write: exactly the arguments the downloader passes
to write_lean_zip_file. -/
structure WriteOp where
  path : List String
  csvFilename : String
  content : List Row
deriving DecidableEq, Repr

/-- Start of the calendar day of an instant: the replace to hour 0 minute 0
second 0 applied to the loop date. -/
def dayStartOf (t : Nat) : Nat := t / 1440 * 1440

/-- End of the calendar day of an instant: the replace to hour 23 minute 59
second 59, at the minute granularity of the instant model. -/
def dayEndOf (t : Nat) : Nat := t / 1440 * 1440 + 1439

/-- Daily and hourly branch of AlpacaDataDownloader.download_symbol_data
(src/data_pipeline/alpaca_downloader.py, lines 93 to 122): fetch the whole
range at once, validate, group the cleaned bars by date key, encode the
groups in sorted key order into one CSV, and write one partition for the
whole range — unless the fetched data, the cleaned data or the CSV content
is empty, in which case nothing is written.  The three nested Python guards
are collapsed into one disjunction; the observable outcome is the same. -/
def alpaca_daily_branch (fetch : FetchOracle) (symbol resolution : String) (s e : Nat) :
    List WriteOp × List LogEntry :=
  let dl := get_bars fetch symbol resolution s e
  let cleaned := cleanBars dl.1
  let all_csv := (sortedDateKeys cleaned).map (fun k =>
    create_lean_tradebar_csv (cleaned.filter (fun b => dateKey b.timestamp = k)) resolution)
  if dl.1 = [] ∨ cleaned = [] ∨ all_csv.flatten = [] then ([], dl.2)
  else ([⟨EQUITY_DATA_PATH ++ [resolution, pyLower symbol ++ ".zip"],
          pyLower symbol ++ "_" ++ resolution ++ "_trade.csv",
          all_csv.flatten⟩],
        dl.2 ++ [.info "saved"])

/-- One iteration of the per-day minute loop of
AlpacaDataDownloader.download_symbol_data
(src/data_pipeline/alpaca_downloader.py, lines 126 to 156): fetch the single
day, validate, encode, and write one partition named by the day — unless the
fetched data, the cleaned data or the CSV content is empty, in which case
nothing is written for that day.  The three nested Python guards are
collapsed into one disjunction; the observable outcome is the same. -/
def process_day_equity (fetch : FetchOracle) (symbol resolution : String) (t : Nat) :
    List WriteOp × List LogEntry :=
  let dl := get_bars fetch symbol resolution (dayStartOf t) (dayEndOf t)
  let cleaned := cleanBars dl.1
  let csv := create_lean_tradebar_csv cleaned resolution
  if dl.1 = [] ∨ cleaned = [] ∨ csv = [] then ([], dl.2)
  else ([⟨EQUITY_DATA_PATH ++ [resolution, pyLower symbol, dayToken t ++ "_trade.zip"],
          dayToken t ++ "_" ++ pyLower symbol ++ "_" ++ resolution ++ "_trade.csv",
          csv⟩],
        dl.2 ++ [.debug "saved"])

/-- The minute branch of AlpacaDataDownloader.download_symbol_data: iterate
the per-day body over the trading days of the range, accumulating writes and
logs in order. -/
def alpaca_minute_branch (fetch : FetchOracle) (symbol resolution : String) (s e : Nat) :
    List WriteOp × List LogEntry :=
  (((get_trading_days s e).map (fun d => (process_day_equity fetch symbol resolution d).1)).flatten,
   ((get_trading_days s e).map (fun d => (process_day_equity fetch symbol resolution d).2)).flatten)

/-- Embedding of AlpacaDataDownloader.download_symbol_data: daily and hour
resolutions use the whole-range branch, every other resolution uses the
per-day branch. -/
def download_symbol_data_alpaca (fetch : FetchOracle) (symbol resolution : String)
    (s e : Nat) : List WriteOp × List LogEntry :=
  if resolution = "daily" ∨ resolution = "hour"
  then alpaca_daily_branch fetch symbol resolution s e
  else alpaca_minute_branch fetch symbol resolution s e

/-- The per-day while loop of BinanceDataDownloader.download_symbol_data
iterates every calendar day of the range (no weekend skipping), stepping one
day at a time; fuel as in get_trading_days_loop. -/
def all_days_loop : Nat → Nat → Nat → List Nat
  | 0, _, _ => []
  | fuel + 1, current, end_ =>
    if current ≤ end_ then current :: all_days_loop fuel (current + 1440) end_
    else []

/-- Every calendar day instant of the range, for the crypto minute loop. -/
def all_days (s e : Nat) : List Nat := all_days_loop (e + 1) s e

/-- Daily and hourly branch of BinanceDataDownloader.download_symbol_data
(src/data_pipeline/binance_downloader.py, lines 89 to 118), the crypto
counterpart of the equity daily branch. -/
def binance_daily_branch (fetch : FetchOracle) (symbol resolution : String) (s e : Nat) :
    List WriteOp × List LogEntry :=
  let dl := get_klines fetch symbol resolution s e
  let cleaned := cleanBars dl.1
  let all_csv := (sortedDateKeys cleaned).map (fun k =>
    create_lean_crypto_csv (cleaned.filter (fun b => dateKey b.timestamp = k)) resolution)
  if dl.1 = [] ∨ cleaned = [] ∨ all_csv.flatten = [] then ([], dl.2)
  else ([⟨CRYPTO_DATA_PATH ++ [resolution, pyLower symbol ++ ".zip"],
          pyLower symbol ++ "_" ++ resolution ++ "_trade.csv",
          all_csv.flatten⟩],
        dl.2 ++ [.info "saved"])

/-- One iteration of the per-day minute loop of
BinanceDataDownloader.download_symbol_data
(src/data_pipeline/binance_downloader.py, lines 120 to 154), the crypto
counterpart of the equity per-day body. -/
def process_day_crypto (fetch : FetchOracle) (symbol resolution : String) (t : Nat) :
    List WriteOp × List LogEntry :=
  let dl := get_klines fetch symbol resolution (dayStartOf t) (dayEndOf t)
  let cleaned := cleanBars dl.1
  let csv := create_lean_crypto_csv cleaned resolution
  if dl.1 = [] ∨ cleaned = [] ∨ csv = [] then ([], dl.2)
  else ([⟨CRYPTO_DATA_PATH ++ [resolution, pyLower symbol, dayToken t ++ "_trade.zip"],
          dayToken t ++ "_" ++ pyLower symbol ++ "_" ++ resolution ++ "_trade.csv",
          csv⟩],
        dl.2 ++ [.debug "saved"])

/-- The minute branch of BinanceDataDownloader.download_symbol_data: iterate
the per-day body over every calendar day of the range. -/
def binance_minute_branch (fetch : FetchOracle) (symbol resolution : String) (s e : Nat) :
    List WriteOp × List LogEntry :=
  (((all_days s e).map (fun d => (process_day_crypto fetch symbol resolution d).1)).flatten,
   ((all_days s e).map (fun d => (process_day_crypto fetch symbol resolution d).2)).flatten)

/-- Embedding of BinanceDataDownloader.download_symbol_data. -/
def download_symbol_data_binance (fetch : FetchOracle) (symbol resolution : String)
    (s e : Nat) : List WriteOp × List LogEntry :=
  if resolution = "daily" ∨ resolution = "hour"
  then binance_daily_branch fetch symbol resolution s e
  else binance_minute_branch fetch symbol resolution s e

/-- Embedding of download_multiple_symbols (identical shape in both
downloaders): run the per-symbol download inside try/except; an error is
logged and the loop continues with the remaining symbols.  The per-symbol
run is an oracle from symbol to either its writes and logs or a raised
error. -/
def download_multiple_symbols
    (run_symbol : String → Except String (List WriteOp × List LogEntry))
    (symbols : List String) : List WriteOp × List LogEntry :=
  ((symbols.map (fun s => match run_symbol s with
      | .ok r => r.1
      | .error _ => [])).flatten,
   (symbols.map (fun s => match run_symbol s with
      | .ok r => r.2
      | .error m => [.error m])).flatten)

/-- The bytes of a written zip archive, at the level of detail the claims
need: the single entry name, its uncompressed CSV payload, and the entry
timestamp.  Modelled from the documented behaviour of the Python zipfile
module: ZipFile.writestr called with a plain string name stamps the entry
with the current local time, so the archive bytes depend on the wall clock
at write time. -/
structure ZipArchive where
  entryName : String
  entryData : String
  entryTime : Nat
deriving DecidableEq, Repr

/-- Embedding of write_lean_zip_file (src/data_pipeline/utils.py, lines 85
to 96) as a value: the archive placed at the output path; now is the wall
clock at the moment of the call, stamped into the entry. -/
def write_lean_zip_file (now : Nat) (content : List Row) (output_path : List String)
    (csv_filename : String) : List String × ZipArchive :=
  (output_path, ⟨csv_filename, csvString content, now⟩)

/-- A fetch oracle that finds no data at all, for concrete witnesses. -/
def emptyFetch : FetchOracle := fun _ _ _ _ => .ok []

/-- A valid concrete bar, for concrete scenario runs. -/
def demoBar : Bar := ⟨⟨2024, 1, 1, 10, 0, 0, 0⟩, 1, 2, 0, 1, 5⟩

/-- A fetch oracle that raises a provider error on the third trading day of
the week starting at instant 0 (the day starting at instant 2880) and
returns one valid bar on every other call. -/
def demoFetch : FetchOracle := fun _ _ s _ =>
  if s = 2880 then .error "provider error" else .ok [demoBar]

/-- Claim C5: an empty fetched series, or a series in which validation drops
every bar, produces no partition write at all for that key — for the
whole-range branch and for the per-day branch of both downloaders. -/
theorem empty_series_writes_nothing (fetch : FetchOracle) (symbol resolution : String)
    (s e t : Nat) :
    ((get_bars fetch symbol resolution s e).1 = [] ∨
        cleanBars (get_bars fetch symbol resolution s e).1 = [] →
      (alpaca_daily_branch fetch symbol resolution s e).1 = []) ∧
    ((get_bars fetch symbol resolution (dayStartOf t) (dayEndOf t)).1 = [] ∨
        cleanBars (get_bars fetch symbol resolution (dayStartOf t) (dayEndOf t)).1 = [] →
      (process_day_equity fetch symbol resolution t).1 = []) ∧
    ((get_klines fetch symbol resolution s e).1 = [] ∨
        cleanBars (get_klines fetch symbol resolution s e).1 = [] →
      (binance_daily_branch fetch symbol resolution s e).1 = []) ∧
    ((get_klines fetch symbol resolution (dayStartOf t) (dayEndOf t)).1 = [] ∨
        cleanBars (get_klines fetch symbol resolution (dayStartOf t) (dayEndOf t)).1 = [] →
      (process_day_crypto fetch symbol resolution t).1 = []) := by
  refine ⟨fun h => ?_, fun h => ?_, fun h => ?_, fun h => ?_⟩ <;>
    rcases h with h | h <;>
    simp [alpaca_daily_branch, process_day_equity, binance_daily_branch, process_day_crypto, h]

/-- C5, witness: a fetch that returns no data produces no partition write in
either branch of either downloader. -/
theorem empty_series_writes_nothing_witness :
    (alpaca_daily_branch emptyFetch "AAPL" "daily" 0 10000).1 = [] ∧
    (process_day_crypto emptyFetch "BTCUSDT" "minute" 0).1 = [] :=
  ⟨(empty_series_writes_nothing emptyFetch "AAPL" "daily" 0 10000 0).1 (Or.inl rfl),
   (empty_series_writes_nothing emptyFetch "BTCUSDT" "minute" 0 10000 0).2.2.2 (Or.inl rfl)⟩

/-- Claim C7: a provider error on one unit of work is caught inside the
fetch wrapper and logged, the unit contributes no writes, units are
processed independently (a unit depends on the oracle only at its own
range), a per-symbol error in the multi-symbol loop is logged and the loop
continues, and in the concrete five-trading-day scenario in which day three
raises a provider error, days one, two, four and five are still written and
the error is logged. -/
theorem provider_error_skips_unit :
    (∀ (fetch : FetchOracle) (symbol timeframe : String) (s e : Nat) (msg : String),
      fetch symbol (convert_timeframe timeframe).1 s e = .error msg →
      get_bars fetch symbol timeframe s e = ([], [.error msg])) ∧
    (∀ (fetch : FetchOracle) (symbol resolution : String) (s e : Nat),
      (alpaca_minute_branch fetch symbol resolution s e).1 =
        ((get_trading_days s e).map
          (fun d => (process_day_equity fetch symbol resolution d).1)).flatten) ∧
    (∀ (fetch : FetchOracle) (symbol resolution : String) (d : Nat) (msg : String),
      fetch symbol (convert_timeframe resolution).1 (dayStartOf d) (dayEndOf d) = .error msg →
      (process_day_equity fetch symbol resolution d).1 = [] ∧
      LogEntry.error msg ∈ (process_day_equity fetch symbol resolution d).2) ∧
    (∀ (fetch fetch' : FetchOracle) (symbol resolution : String) (d : Nat),
      fetch symbol (convert_timeframe resolution).1 (dayStartOf d) (dayEndOf d) =
        fetch' symbol (convert_timeframe resolution).1 (dayStartOf d) (dayEndOf d) →
      process_day_equity fetch symbol resolution d =
        process_day_equity fetch' symbol resolution d) ∧
    (∀ (run_symbol : String → Except String (List WriteOp × List LogEntry))
        (symbols : List String) (sym : String) (msg : String),
      run_symbol sym = .error msg → sym ∈ symbols →
      LogEntry.error msg ∈ (download_multiple_symbols run_symbol symbols).2) ∧
    ((alpaca_minute_branch demoFetch "AAPL" "minute" 0 5760).1.map (fun w => w.path) =
      [EQUITY_DATA_PATH ++ ["minute", "aapl", "0_trade.zip"],
       EQUITY_DATA_PATH ++ ["minute", "aapl", "1_trade.zip"],
       EQUITY_DATA_PATH ++ ["minute", "aapl", "3_trade.zip"],
       EQUITY_DATA_PATH ++ ["minute", "aapl", "4_trade.zip"]] ∧
     LogEntry.error "provider error" ∈ (alpaca_minute_branch demoFetch "AAPL" "minute" 0 5760).2) := by
  refine ⟨?_, ?_, ?_, ?_, ?_, ?_, ?_⟩
  · intro fetch symbol timeframe s e msg h
    simp [get_bars, h]
  · intro fetch symbol resolution s e
    rfl
  · intro fetch symbol resolution d msg h
    constructor <;> simp [process_day_equity, get_bars, h]
  · intro fetch fetch' symbol resolution d h
    simp only [process_day_equity, get_bars]
    rw [h]
  · intro run_symbol symbols sym msg hrun hmem
    refine List.mem_flatten.mpr ⟨[LogEntry.error msg], ?_, by simp⟩
    exact List.mem_map.mpr ⟨sym, hmem, by simp [hrun]⟩
  · decide
  · decide

/-- C7, witness: the per-day statement evaluated on the erring day of the
concrete scenario. -/
theorem provider_error_skips_unit_witness :
    (process_day_equity demoFetch "AAPL" "minute" 2880).1 = [] ∧
    LogEntry.error "provider error" ∈ (process_day_equity demoFetch "AAPL" "minute" 2880).2 :=
  provider_error_skips_unit.2.2.1 demoFetch "AAPL" "minute" 2880 "provider error" rfl

theorem process_day_equity_cases (fetch : FetchOracle) (symbol resolution : String)
    (t : Nat) :
    (process_day_equity fetch symbol resolution t).1 = [] ∨
    (process_day_equity fetch symbol resolution t).1 =
      [⟨EQUITY_DATA_PATH ++ [resolution, pyLower symbol, dayToken t ++ "_trade.zip"],
        dayToken t ++ "_" ++ pyLower symbol ++ "_" ++ resolution ++ "_trade.csv",
        create_lean_tradebar_csv
          (cleanBars (get_bars fetch symbol resolution (dayStartOf t) (dayEndOf t)).1)
          resolution⟩] := by
  unfold process_day_equity
  dsimp only
  split
  · exact Or.inl rfl
  · exact Or.inr rfl

theorem alpaca_daily_branch_cases (fetch : FetchOracle) (symbol resolution : String)
    (s e : Nat) :
    (alpaca_daily_branch fetch symbol resolution s e).1 = [] ∨
    (alpaca_daily_branch fetch symbol resolution s e).1 =
      [⟨EQUITY_DATA_PATH ++ [resolution, pyLower symbol ++ ".zip"],
        pyLower symbol ++ "_" ++ resolution ++ "_trade.csv",
        ((sortedDateKeys (cleanBars (get_bars fetch symbol resolution s e).1)).map (fun k =>
          create_lean_tradebar_csv
            ((cleanBars (get_bars fetch symbol resolution s e).1).filter
              (fun b => dateKey b.timestamp = k))
            resolution)).flatten⟩] := by
  unfold alpaca_daily_branch
  dsimp only
  split
  · exact Or.inl rfl
  · exact Or.inr rfl

theorem minute_branch_paths_pure (fetch : FetchOracle) (symbol resolution : String)
    (l : List Nat) :
    ((l.map (fun d => (process_day_equity fetch symbol resolution d).1)).flatten).map
        (fun w => (w.path, w.csvFilename)) =
      l.filterMap (fun d =>
        if (process_day_equity fetch symbol resolution d).1 = [] then none
        else some (EQUITY_DATA_PATH ++ [resolution, pyLower symbol, dayToken d ++ "_trade.zip"],
          dayToken d ++ "_" ++ pyLower symbol ++ "_" ++ resolution ++ "_trade.csv")) := by
  induction l with
  | nil => rfl
  | cons d l ih =>
    rcases process_day_equity_cases fetch symbol resolution d with h | h <;>
      simp [h, ih]

/-- Claim C8, as stated: the written archive bytes depend only on the CSV
content, the output path and the entry name, so two writes of the same input
are byte-identical. -/
def claimedByteIdempotence : Prop :=
  ∀ (now now' : Nat) (content : List Row) (output_path : List String) (csv_filename : String),
    write_lean_zip_file now content output_path csv_filename =
      write_lean_zip_file now' content output_path csv_filename

/-- C8, counterexample: two writes of the same content at clock instants 0
and 1 produce archives differing in the stamped entry time, so the output is
not byte-identical across runs and the claim as stated is false. -/
theorem byte_idempotence_claim_false : ¬ claimedByteIdempotence := by
  intro h
  have h2 := h 0 1 [] ["aapl.zip"] "aapl.csv"
  simp [write_lean_zip_file] at h2

/-- C8, amended: the entry name, the CSV payload and the placement path of a
written partition are functions of the input alone (so re-running ingestion
for the same key is idempotent up to the entry timestamp, which is the wall
clock stamped by the zip container), and the output path of every write of
the equity downloader is derived purely from resolution, symbol and date:
per-day writes carry the day-named path and file name, whole-range writes
carry the symbol-named path and file name. -/
theorem partition_encoding_idempotent (now now' : Nat) (content : List Row)
    (output_path : List String) (csv_filename : String) (fetch : FetchOracle)
    (symbol resolution : String) (s e : Nat) :
    ((write_lean_zip_file now content output_path csv_filename).2.entryName =
        (write_lean_zip_file now' content output_path csv_filename).2.entryName ∧
      (write_lean_zip_file now content output_path csv_filename).2.entryData =
        (write_lean_zip_file now' content output_path csv_filename).2.entryData ∧
      (write_lean_zip_file now content output_path csv_filename).1 =
        (write_lean_zip_file now' content output_path csv_filename).1 ∧
      (write_lean_zip_file now content output_path csv_filename).2.entryTime = now) ∧
    ((alpaca_minute_branch fetch symbol resolution s e).1.map
        (fun w => (w.path, w.csvFilename)) =
      (get_trading_days s e).filterMap (fun d =>
        if (process_day_equity fetch symbol resolution d).1 = [] then none
        else some (EQUITY_DATA_PATH ++ [resolution, pyLower symbol, dayToken d ++ "_trade.zip"],
          dayToken d ++ "_" ++ pyLower symbol ++ "_" ++ resolution ++ "_trade.csv"))) ∧
    ((alpaca_daily_branch fetch symbol resolution s e).1.map
        (fun w => (w.path, w.csvFilename)) =
      if (alpaca_daily_branch fetch symbol resolution s e).1 = [] then []
      else [(EQUITY_DATA_PATH ++ [resolution, pyLower symbol ++ ".zip"],
        pyLower symbol ++ "_" ++ resolution ++ "_trade.csv")]) := by
  refine ⟨⟨rfl, rfl, rfl, rfl⟩, minute_branch_paths_pure fetch symbol resolution _, ?_⟩
  rcases alpaca_daily_branch_cases fetch symbol resolution s e with h | h <;> simp [h]

/-- Per-symbol coverage report built by AlgorithmRunner.analyze_data_coverage
(src/algo_runner.py, lines 180 to 245).  Dates are numeric %Y%m%d keys,
ordered exactly like the parsed datetimes. -/
structure CoverageReport where
  available : Bool
  start_date : Option Nat
  end_date : Option Nat
  total_days : Nat
  file_type : Option String
deriving DecidableEq, Repr

/-- What the filesystem probing of analyze_data_coverage observes for one
symbol: dailyZipDates is none when no readable daily zip exists under the
daily partition directory, and some ds when it exists and the sampled rows
parse to the date list ds (possibly empty); minuteFolder records whether the
per-symbol minute partition directory exists. -/
structure SymbolStore where
  dailyZipDates : Option (List Nat)
  minuteFolder : Bool

/-- Python min over a nonempty list (the empty case never arises at the call
site, which is guarded by a nonemptiness check). -/
def pyMin : List Nat → Nat
  | [] => 0
  | x :: xs => xs.foldl min x

/-- Python max over a nonempty list, as pyMin. -/
def pyMax : List Nat → Nat
  | [] => 0
  | x :: xs => xs.foldl max x

/-- The tail of analyze_data_coverage for one symbol when the daily zip
yields no dates: the symbol is available exactly when its minute folder
exists, and then carries no date range. -/
def minute_fallback (st : SymbolStore) : CoverageReport :=
  if st.minuteFolder then ⟨true, none, none, 0, some "minute_folder"⟩
  else ⟨false, none, none, 0, none⟩

/-- Embedding of AlgorithmRunner.analyze_data_coverage for one symbol: with
a readable daily zip whose sample parses to a nonempty date list, the report
carries available with the minimum and maximum sampled date; otherwise the
minute-folder fallback applies. -/
def analyze_data_coverage (store : String → SymbolStore) (symbol : String) :
    CoverageReport :=
  match (store symbol).dailyZipDates with
  | some dates =>
      if dates = [] then minute_fallback (store symbol)
      else ⟨true, some (pyMin dates), some (pyMax dates), dates.length, some "daily_zip"⟩
  | none => minute_fallback (store symbol)

/-- The range a report contributes to the window intersection in
display_data_coverage: only an available report carrying both dates
contributes. -/
def reportRange (r : CoverageReport) : Option (Nat × Nat) :=
  if r.available then
    match r.start_date, r.end_date with
    | some a, some b => some (a, b)
    | _, _ => none
  else none

/-- The suggested-global-window computation of
AlgorithmRunner.display_data_coverage (src/algo_runner.py, lines 247 to
298): collect the ranges of the requested symbols in order; with at least
one range the suggestion is the maximum of the starts paired with the
minimum of the ends, provided the former does not exceed the latter;
otherwise there is no suggestion. -/
def suggest_window (symbols : List String) (coverage : String → CoverageReport) :
    Option (Nat × Nat) :=
  match symbols.filterMap (fun s => reportRange (coverage s)) with
  | [] => none
  | r :: rs =>
      let gs := rs.foldl (fun acc x => max acc x.1) r.1
      let ge := rs.foldl (fun acc x => min acc x.2) r.2
      if gs ≤ ge then some (gs, ge) else none

theorem foldl_max_fst_spec (rs : List (Nat × Nat)) (a : Nat) :
    (rs.foldl (fun acc x => max acc x.1) a = a ∨
      ∃ x ∈ rs, rs.foldl (fun acc x => max acc x.1) a = x.1) ∧
    a ≤ rs.foldl (fun acc x => max acc x.1) a ∧
    ∀ x ∈ rs, x.1 ≤ rs.foldl (fun acc x => max acc x.1) a := by
  induction rs generalizing a with
  | nil => simp
  | cons y ys ih =>
    simp only [List.foldl_cons]
    obtain ⟨hmem, hle, hub⟩ := ih (max a y.1)
    refine ⟨?_, le_trans (le_max_left a y.1) hle, ?_⟩
    · rcases hmem with h | ⟨x, hx, hxe⟩
      · rcases max_choice a y.1 with hm | hm
        · exact Or.inl (h.trans hm)
        · exact Or.inr ⟨y, List.mem_cons_self y ys, h.trans hm⟩
      · exact Or.inr ⟨x, List.mem_cons_of_mem y hx, hxe⟩
    · intro x hx
      rcases List.mem_cons.mp hx with rfl | hx
      · exact le_trans (le_max_right a x.1) hle
      · exact hub x hx

theorem foldl_min_snd_spec (rs : List (Nat × Nat)) (a : Nat) :
    (rs.foldl (fun acc x => min acc x.2) a = a ∨
      ∃ x ∈ rs, rs.foldl (fun acc x => min acc x.2) a = x.2) ∧
    rs.foldl (fun acc x => min acc x.2) a ≤ a ∧
    ∀ x ∈ rs, rs.foldl (fun acc x => min acc x.2) a ≤ x.2 := by
  induction rs generalizing a with
  | nil => simp
  | cons y ys ih =>
    simp only [List.foldl_cons]
    obtain ⟨hmem, hle, hub⟩ := ih (min a y.2)
    refine ⟨?_, le_trans hle (min_le_left a y.2), ?_⟩
    · rcases hmem with h | ⟨x, hx, hxe⟩
      · rcases min_choice a y.2 with hm | hm
        · exact Or.inl (h.trans hm)
        · exact Or.inr ⟨y, List.mem_cons_self y ys, h.trans hm⟩
      · exact Or.inr ⟨x, List.mem_cons_of_mem y hx, hxe⟩
    · intro x hx
      rcases List.mem_cons.mp hx with rfl | hx
      · exact le_trans hle (min_le_right a x.2)
      · exact hub x hx

/-- Claim C2: the suggested global window is exactly the maximum of the
contributed start dates paired with the minimum of the contributed end
dates, valid exactly when the former does not exceed the latter; a symbol
with no persisted partitions has available false and contributes no range; a
symbol whose daily zip yields no dates contributes no range; and when no
symbol contributes a range the caller is told no window exists. -/
theorem coverage_window_correct (store : String → SymbolStore) (symbols : List String)
    (S E : Nat) (sym : String) :
    (suggest_window symbols (fun s => analyze_data_coverage store s) = some (S, E) ↔
      ((∃ r ∈ symbols.filterMap (fun s => reportRange (analyze_data_coverage store s)),
          r.1 = S) ∧
        (∀ r ∈ symbols.filterMap (fun s => reportRange (analyze_data_coverage store s)),
          r.1 ≤ S) ∧
        (∃ r ∈ symbols.filterMap (fun s => reportRange (analyze_data_coverage store s)),
          r.2 = E) ∧
        (∀ r ∈ symbols.filterMap (fun s => reportRange (analyze_data_coverage store s)),
          E ≤ r.2) ∧
        S ≤ E)) ∧
    ((store sym).dailyZipDates = none ∧ (store sym).minuteFolder = false →
      (analyze_data_coverage store sym).available = false ∧
      reportRange (analyze_data_coverage store sym) = none) ∧
    (((store sym).dailyZipDates = none ∨ (store sym).dailyZipDates = some []) →
      reportRange (analyze_data_coverage store sym) = none) ∧
    (symbols.filterMap (fun s => reportRange (analyze_data_coverage store s)) = [] →
      suggest_window symbols (fun s => analyze_data_coverage store s) = none) := by
  refine ⟨?_, ?_, ?_, ?_⟩
  · unfold suggest_window
    rcases hranges : symbols.filterMap (fun s => reportRange (analyze_data_coverage store s))
      with - | ⟨r, rs⟩
    · simp
    · obtain ⟨hsmem, hsini, hsub⟩ := foldl_max_fst_spec rs r.1
      obtain ⟨hemem, heini, heub⟩ := foldl_min_snd_spec rs r.2
      dsimp only
      constructor
      · intro hsome
        split at hsome
        · next hle =>
            injection hsome with hpair
            injection hpair with hS hE
            subst hS
            subst hE
            refine ⟨?_, ?_, ?_, ?_, hle⟩
            · rcases hsmem with h | ⟨x, hx, hxe⟩
              · exact ⟨r, List.mem_cons_self r rs, h.symm⟩
              · exact ⟨x, List.mem_cons_of_mem r hx, hxe.symm⟩
            · intro x hx
              rcases List.mem_cons.mp hx with rfl | hx
              · exact hsini
              · exact hsub x hx
            · rcases hemem with h | ⟨x, hx, hxe⟩
              · exact ⟨r, List.mem_cons_self r rs, h.symm⟩
              · exact ⟨x, List.mem_cons_of_mem r hx, hxe.symm⟩
            · intro x hx
              rcases List.mem_cons.mp hx with rfl | hx
              · exact heini
              · exact heub x hx
        · exact absurd hsome (by simp)
      · rintro ⟨⟨rS, hrS, hrSe⟩, hSub, ⟨rE, hrE, hrEe⟩, hEub, hSE⟩
        have hgs : rs.foldl (fun acc x => max acc x.1) r.1 = S := by
          apply le_antisymm
          · rcases hsmem with h | ⟨x, hx, hxe⟩
            · rw [h]
              exact hSub r (List.mem_cons_self r rs)
            · rw [hxe]
              exact hSub x (List.mem_cons_of_mem r hx)
          · rw [← hrSe]
            rcases List.mem_cons.mp hrS with rfl | hx
            · exact hsini
            · exact hsub rS hx
        have hge : rs.foldl (fun acc x => min acc x.2) r.2 = E := by
          apply le_antisymm
          · rw [← hrEe]
            rcases List.mem_cons.mp hrE with rfl | hx
            · exact heini
            · exact heub rE hx
          · rcases hemem with h | ⟨x, hx, hxe⟩
            · rw [h]
              exact hEub r (List.mem_cons_self r rs)
            · rw [hxe]
              exact hEub x (List.mem_cons_of_mem r hx)
        rw [hgs, hge, if_pos hSE]
  · rintro ⟨h1, h2⟩
    constructor <;> simp [analyze_data_coverage, reportRange, minute_fallback, h1, h2]
  · rintro (h1 | h1) <;>
      simp [analyze_data_coverage, reportRange, minute_fallback, h1] <;>
      split <;> simp [reportRange]
  · intro h
    unfold suggest_window
    rw [h]

/-- C2, witness: a store with no persisted partitions for the only requested
symbol yields an unavailable report and no suggested window. -/
theorem coverage_window_correct_witness :
    (analyze_data_coverage (fun _ => ⟨none, false⟩) "C").available = false ∧
    suggest_window ["C"] (fun s => analyze_data_coverage (fun _ => ⟨none, false⟩) s) = none :=
  ⟨((coverage_window_correct (fun _ => ⟨none, false⟩) ["C"] 0 0 "C").2.1 ⟨rfl, rfl⟩).1,
   (coverage_window_correct (fun _ => ⟨none, false⟩) ["C"] 0 0 "C").2.2.2 rfl⟩

end LeanBacktester
